import Mathlib

set_option linter.unusedVariables false

/-!
Shallow embedding of the core of the `rust_ai_trading` repository:
the per-key merge cache (`src/ai_agent/data/cache.rs`), the shared agent
state and its partial-update merge (`src/ai_agent/graph/state.rs`), and the
graph execution engine (`src/ai_agent/graph/graph.rs`).

Rust `HashMap<String, V>` values are modelled as association lists
(`List (String × V)`) whose `insert` replaces an existing binding in place
and otherwise appends; lookups match first.  Rust `serde_json::Value` is
modelled by the scalar fragment the repository's cache logic touches
(null, booleans, integers, strings); its `Display`/`to_string` rendering
(compact JSON, strings quoted and escaped) is modelled by `Value.render`.
Fallible Rust functions (`Result<T, anyhow::Error>`) become
`Except String T`; methods on `&mut self` that can fail become functions
returning the pair (new self, result), so that "self unchanged on error"
is an actual statement about the returned self.
-/

/-- Scalar fragment of `serde_json::Value`: the cache claims only ever
store and compare null/bool/integer/string values. -/
inductive Value where
  | null : Value
  | bool (b : Bool) : Value
  | num (n : Int) : Value
  | str (s : String) : Value
deriving DecidableEq, Repr

/-- JSON string escaping as `serde_json` performs it for the characters the
repository's data can contain: backslash, double quote, and the common
control characters. -/
def jsonEscape (s : String) : String :=
  s.data.foldl (fun acc c =>
    if c = '\\' then acc ++ "\\\\"
    else if c = '"' then acc ++ "\\\""
    else if c = '\n' then acc ++ "\\n"
    else if c = '\r' then acc ++ "\\r"
    else if c = '\t' then acc ++ "\\t"
    else acc.push c) ""

/-- `Value::to_string()` in Rust (the `Display` impl of `serde_json::Value`):
renders the value as compact JSON.  In particular a JSON string renders
WITH surrounding quotes: `Value::String("t1").to_string() == "\"t1\""`. -/
def Value.render : Value → String
  | Value.null => "null"
  | Value.bool true => "true"
  | Value.bool false => "false"
  | Value.num n => toString n
  | Value.str s => "\"" ++ jsonEscape s ++ "\""

/-- Association-list lookup, modelling `HashMap::get`. -/
def alGet {α : Type} (m : List (String × α)) (k : String) : Option α :=
  (m.find? (fun p => p.1 = k)).map (fun p => p.2)

/-- Association-list membership, modelling `HashMap::contains_key`. -/
def alContains {α : Type} (m : List (String × α)) (k : String) : Bool :=
  m.any (fun p => p.1 = k)

/-- Association-list insert, modelling `HashMap::insert`: replaces the
binding in place when the key is present, appends otherwise. -/
def alInsert {α : Type} (m : List (String × α)) (k : String) (v : α) :
    List (String × α) :=
  if alContains m k then
    m.map (fun p => if p.1 = k then (k, v) else p)
  else
    m ++ [(k, v)]

/-- `HashMap::extend(other)`: every entry of `d` is inserted into `base`
in turn, overwriting on key collision. -/
def alExtend {α : Type} (base d : List (String × α)) : List (String × α) :=
  d.foldl (fun acc kv => alInsert acc kv.1 kv.2) base

/-- One cached record: a `HashMap<String, Value>` in the Rust source. -/
abbrev Record : Type := List (String × Value)

/-- The field values of the five per-category caches of `Cache` in
`src/ai_agent/data/cache.rs`: each maps a ticker to the cached records. -/
abbrev TickerMap : Type := List (String × List Record)

/-- `Cache` from `src/ai_agent/data/cache.rs`. -/
structure Cache where
  price_cache : TickerMap
  financial_metric_cache : TickerMap
  line_items_cache : TickerMap
  insider_trades_cache : TickerMap
  company_news_cache : TickerMap
deriving DecidableEq

/-- `Cache::new`. -/
def Cache.new : Cache :=
  { price_cache := [], financial_metric_cache := [], line_items_cache := []
  , insider_trades_cache := [], company_news_cache := [] }

/-- `Cache::merge_data`: folds the new records into a clone of the existing
ones.  For each new record it reads the identity field (error if absent),
renders that value to a string with `to_string`, and appends the record
unless some already-merged record has `Value::String(key)` — the rendered
string re-wrapped as a JSON string value — at the identity field. -/
def Cache.merge_data (existing new_data : List Record) (key_field : String) :
    Except String (List Record) :=
  match new_data with
  | [] => Except.ok existing
  | new_item :: rest =>
    match alGet new_item key_field with
    | none => Except.error ("Missing key field: " ++ key_field)
    | some v =>
      let key := v.render
      if existing.any (fun item =>
          ((alGet item key_field).map (fun w => w == Value.str key)).getD false)
      then Cache.merge_data existing rest key_field
      else Cache.merge_data (existing ++ [new_item]) rest key_field

/-- `Cache::get_prices`: clone of the cached records, `Ok(vec![])` when the
ticker is absent. -/
def Cache.get_prices (c : Cache) (ticker : String) :
    Except String (List Record) :=
  match alGet c.price_cache ticker with
  | some result => Except.ok result
  | none => Except.ok []

/-- `Cache::set_prices` on `&mut self`: returns the new `self` together
with the `Result`.  On a merge error `self` is left as it was. -/
def Cache.set_prices (c : Cache) (ticker : String) (data : List Record) :
    Cache × Except String Unit :=
  let result := (alGet c.price_cache ticker).getD []
  match Cache.merge_data result data "time" with
  | Except.error e => (c, Except.error e)
  | Except.ok merged_data =>
      ({ c with price_cache := alInsert c.price_cache ticker merged_data },
       Except.ok ())

/-- `ChatMessage` from `src/ai_agent/llm/model_provider.rs`. -/
structure ChatMessage where
  role : String
  content : String
deriving DecidableEq, Repr

/-- `AgentState` from `src/ai_agent/graph/state.rs`. -/
structure AgentState where
  messages : List ChatMessage
  data : List (String × Value)
  metadata : List (String × Value)
deriving DecidableEq, Repr

/-- `AgentState::new`. -/
def AgentState.new : AgentState :=
  { messages := [], data := [], metadata := [] }

/-- `AgentState::add_messages` (`Vec::extend`; unconditionally `Ok(())`):
returned as (new self, result). -/
def AgentState.add_messages (s : AgentState) (msgs : List ChatMessage) :
    AgentState × Except String Unit :=
  ({ s with messages := s.messages ++ msgs }, Except.ok ())

/-- `AgentState::merge_data` (`HashMap::extend`: every entry of the new map
is inserted, overwriting on key collision; unconditionally `Ok(())`). -/
def AgentState.merge_data (s : AgentState) (d : List (String × Value)) :
    AgentState × Except String Unit :=
  ({ s with data := alExtend s.data d }, Except.ok ())

/-- `AgentState::merge_metadata` (`HashMap::extend`;
unconditionally `Ok(())`). -/
def AgentState.merge_metadata (s : AgentState) (d : List (String × Value)) :
    AgentState × Except String Unit :=
  ({ s with metadata := alExtend s.metadata d }, Except.ok ())

/-- `PartialAgentStateUpdate` from `src/ai_agent/graph/state.rs`. -/
structure PartialAgentStateUpdate where
  messages : Option (List ChatMessage)
  data : Option (List (String × Value))
  metadata : Option (List (String × Value))
deriving DecidableEq, Repr

/-- `PartialAgentStateUpdate::new`. -/
def PartialAgentStateUpdate.new : PartialAgentStateUpdate :=
  { messages := none, data := none, metadata := none }

/-- The `update_from_partial` method of `AgentState` in
`src/ai_agent/graph/state.rs`: applies each present component with
`let _ = ...` (the inner `Result` is discarded; each inner method returns
`Ok(())` unconditionally) and then returns `Ok(())`.  Modelled as
(new self, result). -/
def AgentState.updateFromPartial (s : AgentState)
    (update : PartialAgentStateUpdate) : AgentState × Except String Unit :=
  let s1 := match update.messages with
    | some new_messages => (s.add_messages new_messages).1
    | none => s
  let s2 := match update.data with
    | some new_data => (s1.merge_data new_data).1
    | none => s1
  let s3 := match update.metadata with
    | some new_metadata => (s2.merge_metadata new_metadata).1
    | none => s2
  (s3, Except.ok ())

/-- The errors `invoke` can return (`anyhow!` messages in the Rust source),
plus a node capability's own error carried as a string. -/
inductive GraphError where
  | cycleDetected (node : String) : GraphError
  | nodeNotFound (node : String) : GraphError
  | nodeError (e : String) : GraphError
  | mergeError (e : String) : GraphError
  | deadEnd (node : String) : GraphError
deriving DecidableEq, Repr

/-- A node capability (`dyn NodeFunction`): asynchronous in Rust, but
awaited to completion by the engine before it advances, so its semantics
is the function from (state, config) to its result. -/
def NodeFunction (Cfg : Type) : Type :=
  AgentState → Cfg → Except String PartialAgentStateUpdate

/-- `StateGraph` from `src/ai_agent/graph/graph.rs`. -/
structure StateGraph (Cfg : Type) where
  nodes : List (String × NodeFunction Cfg)
  edges : List (String × List String)
  entry_point : Option String
  end_node : String

/-- `StateGraph::new`. -/
def StateGraph.new (Cfg : Type) : StateGraph Cfg :=
  { nodes := [], edges := [], entry_point := none, end_node := "END" }

/-- `StateGraph::add_node`: inserts (replacing any prior binding) and
initialises an empty edge list only when the name has none yet. -/
def StateGraph.add_node {Cfg : Type} (g : StateGraph Cfg) (name : String)
    (func : NodeFunction Cfg) : StateGraph Cfg :=
  { g with
    nodes := alInsert g.nodes name func
    edges := if alContains g.edges name then g.edges
             else alInsert g.edges name [] }

/-- `StateGraph::add_edge`: appends `to` to `from`'s successor list,
creating the list when absent (`entry(..).or_insert_with(Vec::new)`). -/
def StateGraph.add_edge {Cfg : Type} (g : StateGraph Cfg)
    (from_node to_node : String) : StateGraph Cfg :=
  { g with
    edges := match alGet g.edges from_node with
      | some succs => alInsert g.edges from_node (succs ++ [to_node])
      | none => alInsert g.edges from_node [to_node] }

/-- `StateGraph::set_entry_point`. -/
def StateGraph.set_entry_point {Cfg : Type} (g : StateGraph Cfg)
    (node : String) : StateGraph Cfg :=
  { g with entry_point := some node }

/-- `CompiledGraph`: an immutable shared snapshot of the definition. -/
structure CompiledGraph (Cfg : Type) where
  graph : StateGraph Cfg

/-- `StateGraph::compile`. -/
def StateGraph.compile {Cfg : Type} (g : StateGraph Cfg) : CompiledGraph Cfg :=
  { graph := g }

/-- Outcome of one `invoke` call.  `trace` instruments the run with the
names of the nodes whose capability was actually called, in call order
(the Rust function returns only the `Result`; the trace is erased there).
`panicked` models a Rust `panic!`/`expect` abort, which is not a returned
error.  `outOfFuel` is an artefact of the fuelled loop model and is proved
unreachable for the fuel `invoke` supplies. -/
inductive RunResult where
  | ok (trace : List String) (state : AgentState) : RunResult
  | fail (trace : List String) (e : GraphError) : RunResult
  | panicked (msg : String) : RunResult
  | outOfFuel (trace : List String) : RunResult
deriving DecidableEq, Repr

/-- Is the result the fuel-exhaustion artefact? -/
def RunResult.isOutOfFuel : RunResult → Bool
  | RunResult.outOfFuel _ => true
  | _ => false

/-- Is the result an error RETURNED to the caller (as opposed to a success,
a panic, or the fuel artefact)? -/
def RunResult.isFail : RunResult → Bool
  | RunResult.fail _ _ => true
  | _ => false

/-- The `while current != end_node` loop of `CompiledGraph::invoke`,
indexed by fuel.  Each iteration: terminate at the sentinel; fail on a
revisit (`Cycle detected`); record the visit; resolve the capability
(fail `Node not found` if absent); call it (propagate its error with `?`);
merge its update (propagate with `?`; the merge in fact always succeeds);
resolve the successor list (absent is impossible for registered nodes but
the code checks: `No edges defined`, empty list is `Dead end`); step to
the FIRST successor. -/
def invokeLoop {Cfg : Type} (g : StateGraph Cfg) (config : Cfg) :
    Nat → List String → String → AgentState → List String → RunResult
  | 0, _, _, _, trace => RunResult.outOfFuel trace
  | fuel + 1, visited, current, state, trace =>
    if current = g.end_node then RunResult.ok trace state
    else if current ∈ visited then
      RunResult.fail trace (GraphError.cycleDetected current)
    else
      match alGet g.nodes current with
      | none => RunResult.fail trace (GraphError.nodeNotFound current)
      | some node_func =>
        let trace' := trace ++ [current]
        match node_func state config with
        | Except.error e => RunResult.fail trace' (GraphError.nodeError e)
        | Except.ok update =>
          match (state.updateFromPartial update).2 with
          | Except.error e => RunResult.fail trace' (GraphError.mergeError e)
          | Except.ok _ =>
            let state' := (state.updateFromPartial update).1
            match alGet g.edges current with
            | none => RunResult.fail trace' (GraphError.nodeNotFound current)
            | some [] => RunResult.fail trace' (GraphError.deadEnd current)
            | some (next :: _) =>
              invokeLoop g config fuel (current :: visited) next state' trace'

/-- `CompiledGraph::invoke`.  `entry_point.clone().expect(..)` panics when
no entry point was set.  The loop needs at most one iteration per
registered node plus the terminating one, so `nodes.length + 1` fuel is
exact (proved below: the result is never `outOfFuel`). -/
def CompiledGraph.invoke {Cfg : Type} (g : CompiledGraph Cfg)
    (initial_state : AgentState) (config : Cfg) : RunResult :=
  match g.graph.entry_point with
  | none => RunResult.panicked "Graph must have an entry point"
  | some entry =>
      invokeLoop g.graph config (g.graph.nodes.length + 1) [] entry
        initial_state []

/-- Sequential execution of the capabilities along a list of node names,
merging each partial update in turn: the reference fold that a simple-path
`invoke` must agree with. -/
def pathExec {Cfg : Type} (g : StateGraph Cfg) (config : Cfg) :
    List String → AgentState → Except GraphError AgentState
  | [], state => Except.ok state
  | n :: rest, state =>
    match alGet g.nodes n with
    | none => Except.error (GraphError.nodeNotFound n)
    | some f =>
      match f state config with
      | Except.error e => Except.error (GraphError.nodeError e)
      | Except.ok u => pathExec g config rest (state.updateFromPartial u).1

/-- Does every consecutive pair of the list, and finally the sentinel, sit
first in the successor list of its predecessor?  (`invoke` follows only
the first successor.) -/
def pathOk {Cfg : Type} (g : StateGraph Cfg) : List String → Bool
  | [] => true
  | [n] => ((alGet g.edges n).bind List.head?) == some g.end_node
  | n :: m :: rest =>
      (((alGet g.edges n).bind List.head?) == some m) && pathOk g (m :: rest)

/-! Concrete data used to exhibit behaviours of the embedded program. -/

/-- A price record with identity field `"time" = "t1"`. -/
def rec_t1 : Record := [("time", Value.str "t1"), ("open", Value.num 1)]

/-- A different record sharing the identity value `"t1"`. -/
def rec_t1_other : Record := [("time", Value.str "t1"), ("open", Value.num 2)]

/-- A record with identity field `"time" = "t2"`. -/
def rec_t2 : Record := [("time", Value.str "t2"), ("open", Value.num 3)]

/-- A record lacking the `"time"` identity field. -/
def rec_no_time : Record := [("open", Value.num 4)]

/-- A node capability that appends one tagged message and never fails. -/
def nodeEmit (tag : String) : NodeFunction Unit := fun _ _ =>
  Except.ok { messages := some [{ role := "assistant", content := tag }]
            , data := none, metadata := none }

/-- A node capability that always fails with error `"boom"`. -/
def nodeBoom : NodeFunction Unit := fun _ _ => Except.error "boom"

/-- `A → B → A`: a two-node cyclic graph. -/
def cycleGraph : CompiledGraph Unit :=
  ((((((StateGraph.new Unit).add_node "A" (nodeEmit "A")).add_node "B"
      (nodeEmit "B")).add_edge "A" "B").add_edge "B" "A").set_entry_point
      "A").compile

/-- A simple path `A → B → END`, with an extra (never-taken) second
successor `C` on `A`'s edge list. -/
def pathGraph : CompiledGraph Unit :=
  (((((((StateGraph.new Unit).add_node "A" (nodeEmit "A")).add_node "B"
      (nodeEmit "B")).add_edge "A" "B").add_edge "A" "C").add_edge "B"
      "END").set_entry_point "A").compile

/-- A graph that was never given an entry point. -/
def noEntryGraph : CompiledGraph Unit :=
  (((StateGraph.new Unit).add_node "A" (nodeEmit "A")).add_edge "A"
      "END").compile

/-- A single-node graph whose node always fails. -/
def errGraph : CompiledGraph Unit :=
  ((((StateGraph.new Unit).add_node "A" nodeBoom).add_edge "A"
      "END").set_entry_point "A").compile

/-- A two-node builder state used to exercise node re-registration. -/
def regGraph : StateGraph Unit :=
  ((((StateGraph.new Unit).add_node "A" (nodeEmit "A")).add_edge "A"
      "B").add_node "B" (nodeEmit "B")).set_entry_point "A"

/-- A partial update writing `"k"` and `"j"` plus one message. -/
def u1ex : PartialAgentStateUpdate :=
  { messages := some [{ role := "assistant", content := "first" }]
  , data := some [("k", Value.num 1), ("j", Value.num 7)]
  , metadata := none }

/-- A second partial update re-writing `"k"` plus one message. -/
def u2ex : PartialAgentStateUpdate :=
  { messages := some [{ role := "assistant", content := "second" }]
  , data := some [("k", Value.num 2)]
  , metadata := none }

/-! ### Association-list lemmas -/

lemma alGet_cons {α : Type} (a : String × α) (m : List (String × α))
    (k : String) :
    alGet (a :: m) k = if a.1 = k then some a.2 else alGet m k := by
  unfold alGet
  by_cases h : a.1 = k
  · rw [List.find?_cons_of_pos _ (by simpa using h), if_pos h]
    rfl
  · rw [List.find?_cons_of_neg _ (by simpa using h), if_neg h]

lemma mem_keys_of_alGet_eq_some {α : Type} {m : List (String × α)}
    {k : String} {v : α} (h : alGet m k = some v) : k ∈ m.map Prod.fst := by
  induction m with
  | nil => simp [alGet] at h
  | cons a as ih =>
    rw [alGet_cons] at h
    by_cases ha : a.1 = k
    · exact List.mem_map.mpr ⟨a, List.mem_cons_self a as, ha⟩
    · rw [if_neg ha] at h
      exact List.mem_cons_of_mem _ (ih h)

lemma alGet_eq_none_of_not_mem {α : Type} {m : List (String × α)}
    {k : String} (h : k ∉ m.map Prod.fst) : alGet m k = none := by
  cases hg : alGet m k with
  | none => rfl
  | some v => exact absurd (mem_keys_of_alGet_eq_some hg) h

lemma alGet_replaceAll_self {α : Type} (m : List (String × α)) (k : String)
    (v : α) (hc : alContains m k = true) :
    alGet (m.map (fun p => if p.1 = k then (k, v) else p)) k = some v := by
  induction m with
  | nil => simp [alContains] at hc
  | cons a as ih =>
    rw [List.map_cons]
    by_cases ha : a.1 = k
    · rw [if_pos ha, alGet_cons, if_pos rfl]
    · have hc' : alContains as k = true := by
        simp only [alContains, List.any_cons, Bool.or_eq_true,
          decide_eq_true_eq] at hc ⊢
        exact hc.resolve_left ha
      rw [if_neg ha, alGet_cons, if_neg ha]
      exact ih hc'

lemma alGet_replaceAll_ne {α : Type} (m : List (String × α)) (k : String)
    (v : α) (k' : String) (h : k' ≠ k) :
    alGet (m.map (fun p => if p.1 = k then (k, v) else p)) k' = alGet m k' := by
  induction m with
  | nil => rfl
  | cons a as ih =>
    rw [List.map_cons]
    by_cases ha : a.1 = k
    · have hak : a.1 ≠ k' := fun hh => h (hh ▸ ha ▸ rfl)
      rw [if_pos ha, alGet_cons, alGet_cons, if_neg (fun hh => h hh.symm),
        if_neg hak]
      exact ih
    · rw [if_neg ha, alGet_cons, alGet_cons]
      by_cases hak : a.1 = k'
      · rw [if_pos hak, if_pos hak]
      · rw [if_neg hak, if_neg hak]
        exact ih

lemma alGet_alInsert {α : Type} (m : List (String × α)) (k : String) (v : α)
    (k' : String) :
    alGet (alInsert m k v) k' = if k' = k then some v else alGet m k' := by
  unfold alInsert
  by_cases hc : alContains m k
  · rw [if_pos hc]
    by_cases hk : k' = k
    · rw [if_pos hk, hk]
      exact alGet_replaceAll_self m k v hc
    · rw [if_neg hk]
      exact alGet_replaceAll_ne m k v k' hk
  · rw [if_neg hc]
    unfold alGet
    rw [List.find?_append]
    by_cases hk : k' = k
    · subst hk
      have hnone : m.find? (fun p => decide (p.1 = k')) = none := by
        rw [List.find?_eq_none]
        intro x hx
        simp only [decide_eq_true_eq]
        intro hxk
        exact hc (List.any_eq_true.mpr ⟨x, hx, by simpa using hxk⟩)
      rw [hnone, if_pos rfl]
      simp [List.find?]
    · rw [if_neg hk]
      have hone : List.find? (fun p => decide (p.1 = k')) [(k, v)] = none := by
        have hdec : decide (k = k') = false :=
          decide_eq_false (fun hh => hk (Eq.symm hh))
        simp [List.find?, hdec]
      rw [hone, Option.or_none]

lemma alGet_alExtend {α : Type} (base d : List (String × α)) (k : String)
    (hnd : (d.map Prod.fst).Nodup) :
    alGet (alExtend base d) k = (alGet d k).or (alGet base k) := by
  induction d generalizing base with
  | nil => simp [alExtend, alGet]
  | cons a as ih =>
    rw [List.map_cons, List.nodup_cons] at hnd
    have step : alExtend base (a :: as) = alExtend (alInsert base a.1 a.2) as :=
      rfl
    rw [step, ih _ hnd.2, alGet_alInsert, alGet_cons]
    by_cases hk : a.1 = k
    · have hnone : alGet as k = none :=
        alGet_eq_none_of_not_mem (hk ▸ hnd.1)
      rw [hnone, if_pos hk, if_pos (Eq.symm hk)]
      rfl
    · rw [if_neg hk, if_neg (fun hh => hk (Eq.symm hh))]

/-! ### State-merge lemmas -/

lemma updateFromPartial_snd (s : AgentState) (u : PartialAgentStateUpdate) :
    (s.updateFromPartial u).2 = Except.ok () := rfl

lemma updateFromPartial_fst (s : AgentState) (u : PartialAgentStateUpdate) :
    (s.updateFromPartial u).1 =
      { messages := s.messages ++ u.messages.getD []
      , data := alExtend s.data (u.data.getD [])
      , metadata := alExtend s.metadata (u.metadata.getD []) } := by
  obtain ⟨ms, d, md⟩ := u
  cases ms <;> cases d <;> cases md <;>
    simp [AgentState.updateFromPartial, AgentState.add_messages,
      AgentState.merge_data, AgentState.merge_metadata, alExtend]

/-! ### Cache lemmas -/

lemma merge_data_error_of_missing (existing data : List Record)
    (key_field : String) (h : ∃ r ∈ data, alGet r key_field = none) :
    Cache.merge_data existing data key_field =
      Except.error ("Missing key field: " ++ key_field) := by
  induction data generalizing existing with
  | nil => simp at h
  | cons a rest ih =>
    cases ha : alGet a key_field with
    | none => rw [Cache.merge_data, ha]
    | some v =>
      have hrest : ∃ r ∈ rest, alGet r key_field = none := by
        rcases h with ⟨r, hr, hrn⟩
        rcases List.mem_cons.mp hr with rfl | hr'
        · rw [ha] at hrn; exact absurd hrn (by simp)
        · exact ⟨r, hr', hrn⟩
      rw [Cache.merge_data, ha]
      dsimp only
      split
      · exact ih existing hrest
      · exact ih _ hrest

/-! ### Graph-execution lemmas -/

lemma invokeLoop_not_outOfFuel {Cfg : Type} (g : StateGraph Cfg) (cfg : Cfg) :
    ∀ (fuel : Nat) (visited : List String) (current : String)
      (s : AgentState) (tr : List String),
      visited.Nodup → (∀ v ∈ visited, v ∈ g.nodes.map Prod.fst) →
      g.nodes.length + 1 ≤ fuel + visited.length →
      (invokeLoop g cfg fuel visited current s tr).isOutOfFuel = false := by
  intro fuel
  induction fuel with
  | zero =>
    intro visited current s tr hnd hsub hlen
    exfalso
    have h1 : visited.length ≤ (g.nodes.map Prod.fst).length :=
      (List.subperm_of_subset hnd (fun x hx => hsub x hx)).length_le
    rw [List.length_map] at h1
    omega
  | succ fuel ih =>
    intro visited current s tr hnd hsub hlen
    rw [invokeLoop]
    by_cases hend : current = g.end_node
    · rw [if_pos hend]; rfl
    · rw [if_neg hend]
      by_cases hvis : current ∈ visited
      · rw [if_pos hvis]; rfl
      · rw [if_neg hvis]
        cases hf : alGet g.nodes current with
        | none => rfl
        | some f =>
          dsimp only
          cases hcall : f s cfg with
          | error e => rfl
          | ok u =>
            dsimp only
            rw [updateFromPartial_snd]
            cases he : alGet g.edges current with
            | none => rfl
            | some succs =>
              cases succs with
              | nil => rfl
              | cons next more =>
                dsimp only
                apply ih (current :: visited) next _ (tr ++ [current])
                · exact List.nodup_cons.mpr ⟨hvis, hnd⟩
                · intro v hv
                  rcases List.mem_cons.mp hv with rfl | hv'
                  · exact mem_keys_of_alGet_eq_some hf
                  · exact hsub v hv'
                · simp only [List.length_cons]
                  omega

lemma bind_head_eq_some {l : Option (List String)} {x : String}
    (h : l.bind List.head? = some x) :
    ∃ more, l = some (x :: more) := by
  cases l with
  | none => simp at h
  | some xs =>
    cases xs with
    | nil => simp at h
    | cons y ys =>
      simp at h
      exact ⟨ys, by rw [h]⟩

lemma invokeLoop_path {Cfg : Type} (g : StateGraph Cfg) (cfg : Cfg) :
    ∀ (p : List String) (a : String) (s : AgentState)
      (visited tr : List String) (fuel : Nat),
      (∀ n ∈ a :: p, n ≠ g.end_node) →
      (∀ n ∈ a :: p, n ∉ visited) →
      (a :: p).Nodup →
      pathOk g (a :: p) = true →
      (∀ n ∈ a :: p, ∃ f, alGet g.nodes n = some f ∧
        ∀ st, ∃ u, f st cfg = Except.ok u) →
      (a :: p).length + 1 ≤ fuel →
      ∃ sF, invokeLoop g cfg fuel visited a s tr =
              RunResult.ok (tr ++ (a :: p)) sF ∧
            pathExec g cfg (a :: p) s = Except.ok sF := by
  intro p
  induction p with
  | nil =>
    intro a s visited tr fuel hend hvis hnd hpath hnodes hfuel
    obtain ⟨f, hf, hsucc⟩ := hnodes a (List.mem_cons_self a [])
    obtain ⟨u, hu⟩ := hsucc s
    have hedge : (alGet g.edges a).bind List.head? = some g.end_node := by
      have := hpath
      simp only [pathOk, beq_iff_eq] at this
      exact this
    obtain ⟨more, hsuccs⟩ := bind_head_eq_some hedge
    obtain ⟨fuel2, rfl⟩ : ∃ f2, fuel = f2 + 1 + 1 := by
      refine ⟨fuel - 2, ?_⟩
      simp only [List.length_cons, List.length_nil] at hfuel
      omega
    refine ⟨(s.updateFromPartial u).1, ?_, ?_⟩
    · rw [invokeLoop, if_neg (hend a (List.mem_cons_self a [])),
        if_neg (hvis a (List.mem_cons_self a [])), hf]
      dsimp only
      rw [hu]
      dsimp only
      rw [updateFromPartial_snd]
      dsimp only
      rw [hsuccs]
      dsimp only
      rw [invokeLoop, if_pos rfl]
    · rw [pathExec, hf]
      dsimp only
      rw [hu]
      dsimp only
      rw [pathExec]
  | cons b rest ih =>
    intro a s visited tr fuel hend hvis hnd hpath hnodes hfuel
    obtain ⟨f, hf, hsucc⟩ := hnodes a (List.mem_cons_self a _)
    obtain ⟨u, hu⟩ := hsucc s
    have hsplit : ((alGet g.edges a).bind List.head? = some b) ∧
        pathOk g (b :: rest) = true := by
      have := hpath
      simp only [pathOk, Bool.and_eq_true, beq_iff_eq] at this
      exact this
    obtain ⟨more, hsuccs⟩ := bind_head_eq_some hsplit.1
    obtain ⟨fuel1, rfl⟩ : ∃ f1, fuel = f1 + 1 := by
      refine ⟨fuel - 1, ?_⟩
      simp only [List.length_cons] at hfuel
      omega
    have hna : a ∉ b :: rest := (List.nodup_cons.mp hnd).1
    obtain ⟨sF, hrun, hexec⟩ :=
      ih b ((s.updateFromPartial u).1) (a :: visited) (tr ++ [a]) fuel1
        (fun n hn => hend n (List.mem_cons_of_mem a hn))
        (fun n hn => by
          intro hmem
          rcases List.mem_cons.mp hmem with rfl | hmem'
          · exact hna hn
          · exact hvis n (List.mem_cons_of_mem a hn) hmem')
        (List.nodup_cons.mp hnd).2
        hsplit.2
        (fun n hn => hnodes n (List.mem_cons_of_mem a hn))
        (by simp only [List.length_cons] at hfuel ⊢; omega)
    refine ⟨sF, ?_, ?_⟩
    · rw [invokeLoop, if_neg (hend a (List.mem_cons_self a _)),
        if_neg (hvis a (List.mem_cons_self a _)), hf]
      dsimp only
      rw [hu]
      dsimp only
      rw [updateFromPartial_snd]
      dsimp only
      rw [hsuccs]
      dsimp only
      rw [hrun]
      simp [List.append_assoc]
    · rw [pathExec, hf]
      dsimp only
      rw [hu]
      dsimp only
      exact hexec

/-! ### Claim theorems -/

/-- C1: the claim says the second `set` drops the record whose `"time"`
value `"t1"` already exists, leaving exactly two cached records.  The code
disagrees: `merge_data` compares existing values against
`Value::String(new_value.to_string())`, and `to_string` on a JSON string
yields it WITH quotes, so the duplicate check never matches and the second
`"t1"` record is appended — three records are cached. -/
theorem cache_set_keeps_duplicate_time_record :
    Cache.get_prices
        (Cache.set_prices (Cache.set_prices Cache.new "AAPL" [rec_t1]).1
          "AAPL" [rec_t1_other, rec_t2]).1 "AAPL" =
      Except.ok [rec_t1, rec_t1_other, rec_t2] := by
  rfl

/-- C2: the claim says the cache merge is idempotent.  It is not: setting
the same single record twice stores it twice (the quoted-string rendering
defeats the duplicate check), so set-twice differs from set-once. -/
theorem cache_set_not_idempotent :
    Cache.get_prices
        (Cache.set_prices (Cache.set_prices Cache.new "AAPL" [rec_t1]).1
          "AAPL" [rec_t1]).1 "AAPL" = Except.ok [rec_t1, rec_t1] ∧
    Cache.get_prices (Cache.set_prices Cache.new "AAPL" [rec_t1]).1 "AAPL" =
      Except.ok [rec_t1] :=
  ⟨rfl, rfl⟩

/-- C3: if any record in the list lacks the `"time"` identity field,
`set_prices` returns the `Missing key field` error and leaves the cache
exactly as it was (no partial merge). -/
theorem set_prices_missing_key_field (c : Cache) (ticker : String)
    (data : List Record) (h : ∃ r ∈ data, alGet r "time" = none) :
    Cache.set_prices c ticker data =
      (c, Except.error "Missing key field: time") := by
  unfold Cache.set_prices
  dsimp only
  rw [merge_data_error_of_missing _ _ _ h]
  rfl

/-- Witness for C3 at a concrete input: the first record carries the
identity field, the second lacks it; the cache is unchanged. -/
theorem set_prices_missing_key_field_witness :
    Cache.set_prices Cache.new "AAPL" [rec_t1, rec_no_time] =
      (Cache.new, Except.error "Missing key field: time") :=
  set_prices_missing_key_field Cache.new "AAPL" [rec_t1, rec_no_time]
    ⟨rec_no_time, by decide, by decide⟩

/-- C8: `get_prices` is total: it returns `Ok` of the full stored sequence,
and `Ok` of the empty sequence when nothing is cached for the ticker. -/
theorem get_prices_total (c : Cache) (ticker : String) :
    Cache.get_prices c ticker =
      Except.ok ((alGet c.price_cache ticker).getD []) := by
  unfold Cache.get_prices
  cases alGet c.price_cache ticker <;> rfl

/-- C6: applying two partial updates in sequence: a data key set by both
holds the second update's value (last-write-wins); a key set only by the
first keeps its value; the messages of both updates are appended to the
state's message sequence in order. -/
theorem updateFromPartial_last_write_wins (s : AgentState)
    (u1 u2 : PartialAgentStateUpdate) (m1 m2 : List ChatMessage)
    (d1 d2 : List (String × Value)) (k k' : String) (v1 v2 w : Value)
    (hm1 : u1.messages = some m1) (hm2 : u2.messages = some m2)
    (hd1 : u1.data = some d1) (hd2 : u2.data = some d2)
    (hnd1 : (d1.map Prod.fst).Nodup) (hnd2 : (d2.map Prod.fst).Nodup)
    (hk1 : alGet d1 k = some v1) (hk2 : alGet d2 k = some v2)
    (hk'1 : alGet d1 k' = some w) (hk'2 : alGet d2 k' = none) :
    alGet (((s.updateFromPartial u1).1.updateFromPartial u2).1).data k =
        some v2 ∧
    alGet (((s.updateFromPartial u1).1.updateFromPartial u2).1).data k' =
        some w ∧
    (((s.updateFromPartial u1).1.updateFromPartial u2).1).messages =
        s.messages ++ m1 ++ m2 := by
  simp only [updateFromPartial_fst, hm1, hm2, hd1, hd2, Option.getD_some]
  refine ⟨?_, ?_, trivial⟩
  · rw [alGet_alExtend _ _ _ hnd2, hk2]
    rfl
  · rw [alGet_alExtend _ _ _ hnd2, hk'2, alGet_alExtend _ _ _ hnd1, hk'1]
    rfl

/-- Witness for C6 at concrete inputs: `"k"` is written by both updates and
ends at the second value, `"j"` only by the first and keeps its value, and
both messages are appended in order. -/
theorem updateFromPartial_last_write_wins_witness :
    alGet (((AgentState.new.updateFromPartial u1ex).1.updateFromPartial
        u2ex).1).data "k" = some (Value.num 2) ∧
    alGet (((AgentState.new.updateFromPartial u1ex).1.updateFromPartial
        u2ex).1).data "j" = some (Value.num 7) ∧
    (((AgentState.new.updateFromPartial u1ex).1.updateFromPartial
        u2ex).1).messages =
      AgentState.new.messages ++
        [{ role := "assistant", content := "first" }] ++
        [{ role := "assistant", content := "second" }] :=
  updateFromPartial_last_write_wins AgentState.new u1ex u2ex
    [{ role := "assistant", content := "first" }]
    [{ role := "assistant", content := "second" }]
    [("k", Value.num 1), ("j", Value.num 7)] [("k", Value.num 2)]
    "k" "j" (Value.num 1) (Value.num 2) (Value.num 7)
    rfl rfl rfl rfl (by decide) (by decide) (by decide) (by decide)
    (by decide) (by decide)

/-- C9: the empty partial update (`PartialAgentStateUpdate::new`) is an
identity for the merge, and the merge returns `Ok` for every state and
every update. -/
theorem updateFromPartial_empty_identity (s : AgentState)
    (u : PartialAgentStateUpdate) :
    s.updateFromPartial PartialAgentStateUpdate.new = (s, Except.ok ()) ∧
    (s.updateFromPartial u).2 = Except.ok () :=
  ⟨rfl, updateFromPartial_snd s u⟩

/-- C10: re-registering a node name replaces only that name's capability:
the edge map (hence that node's accumulated successor list and everyone
else's), every other node's binding, and the entry point are unchanged. -/
theorem add_node_reregister {Cfg : Type} (g : StateGraph Cfg) (name : String)
    (f0 fNew : NodeFunction Cfg)
    (hreg : alGet g.nodes name = some f0)
    (hedge : alContains g.edges name = true) :
    (g.add_node name fNew).edges = g.edges ∧
    (g.add_node name fNew).entry_point = g.entry_point ∧
    (g.add_node name fNew).end_node = g.end_node ∧
    alGet (g.add_node name fNew).nodes name = some fNew ∧
    ∀ other, other ≠ name →
      alGet (g.add_node name fNew).nodes other = alGet g.nodes other := by
  unfold StateGraph.add_node
  refine ⟨?_, rfl, rfl, ?_, ?_⟩
  · dsimp only
    rw [if_pos hedge]
  · dsimp only
    rw [alGet_alInsert, if_pos rfl]
  · intro other hne
    dsimp only
    rw [alGet_alInsert, if_neg hne]

/-- Witness for C10: re-registering `"A"` in a concrete two-node builder
leaves edges, the other binding and the entry point unchanged. -/
theorem add_node_reregister_witness :
    (regGraph.add_node "A" (nodeEmit "A2")).edges = regGraph.edges ∧
    (regGraph.add_node "A" (nodeEmit "A2")).entry_point =
      regGraph.entry_point ∧
    (regGraph.add_node "A" (nodeEmit "A2")).end_node = regGraph.end_node ∧
    alGet (regGraph.add_node "A" (nodeEmit "A2")).nodes "A" =
      some (nodeEmit "A2") ∧
    ∀ other, other ≠ "A" →
      alGet (regGraph.add_node "A" (nodeEmit "A2")).nodes other =
        alGet regGraph.nodes other :=
  add_node_reregister regGraph "A" (nodeEmit "A") (nodeEmit "A2") rfl rfl

/-- C4: on a graph whose registered nodes and edges form a simple path from
the entry node to the terminal sentinel (extra successors beyond the first
are allowed and ignored), `invoke` calls every node on the path exactly
once, in path order — the trace equals the path — and returns `Ok` with
the state accumulated by folding the nodes' updates along the path. -/
theorem invoke_simple_path {Cfg : Type} (g : CompiledGraph Cfg) (cfg : Cfg)
    (a : String) (rest : List String) (s0 : AgentState)
    (hentry : g.graph.entry_point = some a)
    (hend : ∀ n ∈ a :: rest, n ≠ g.graph.end_node)
    (hnd : (a :: rest).Nodup)
    (hpath : pathOk g.graph (a :: rest) = true)
    (hnodes : ∀ n ∈ a :: rest, ∃ f, alGet g.graph.nodes n = some f ∧
      ∀ st, ∃ u, f st cfg = Except.ok u) :
    ∃ sF, g.invoke s0 cfg = RunResult.ok (a :: rest) sF ∧
          pathExec g.graph cfg (a :: rest) s0 = Except.ok sF := by
  have hsub : (a :: rest) ⊆ g.graph.nodes.map Prod.fst := by
    intro n hn
    obtain ⟨f, hf, _⟩ := hnodes n hn
    exact mem_keys_of_alGet_eq_some hf
  have hlen : (a :: rest).length ≤ g.graph.nodes.length := by
    have := (List.subperm_of_subset hnd hsub).length_le
    rwa [List.length_map] at this
  obtain ⟨sF, hrun, hexec⟩ :=
    invokeLoop_path g.graph cfg rest a s0 [] [] (g.graph.nodes.length + 1)
      hend (fun n _ => List.not_mem_nil n) hnd hpath hnodes (by omega)
  refine ⟨sF, ?_, hexec⟩
  rw [CompiledGraph.invoke, hentry]
  dsimp only
  exact hrun

/-- Witness for C4: the concrete path graph `A → B → END` (with an unused
second successor `C` on `A`) is traversed in order `[A, B]` and succeeds. -/
theorem invoke_simple_path_witness :
    ∃ sF, pathGraph.invoke AgentState.new () = RunResult.ok ["A", "B"] sF ∧
          pathExec pathGraph.graph () ["A", "B"] AgentState.new =
            Except.ok sF :=
  invoke_simple_path pathGraph () "A" ["B"] AgentState.new rfl
    (by decide) (by decide) (by decide)
    (by
      intro n hn
      simp only [List.mem_cons, List.not_mem_nil, or_false] at hn
      rcases hn with rfl | rfl
      · exact ⟨nodeEmit "A", rfl, fun st => ⟨_, rfl⟩⟩
      · exact ⟨nodeEmit "B", rfl, fun st => ⟨_, rfl⟩⟩)

/-- C5: `invoke` always terminates — the fuelled loop, given one unit of
fuel per registered node plus one, never exhausts its fuel — and on the
concrete cyclic graph `A → B → A` it fails with the cycle-detected error on
the second visit to `A`: the trace `["A", "B"]` shows `A`'s capability was
called exactly once. -/
theorem invoke_terminates_and_detects_cycles :
    (∀ (Cfg : Type) (g : CompiledGraph Cfg) (s : AgentState) (cfg : Cfg),
       (g.invoke s cfg).isOutOfFuel = false) ∧
    cycleGraph.invoke AgentState.new () =
      RunResult.fail ["A", "B"] (GraphError.cycleDetected "A") := by
  constructor
  · intro Cfg g s cfg
    rw [CompiledGraph.invoke]
    cases hE : g.graph.entry_point with
    | none => rfl
    | some entry =>
      exact invokeLoop_not_outOfFuel g.graph cfg (g.graph.nodes.length + 1)
        [] entry s [] List.nodup_nil (fun v hv => absurd hv (List.not_mem_nil v))
        (by simp)
  · rfl

/-- C7 (amended): a node capability error aborts the invocation at once —
the result is that error, the trace stops at the failing node (its update
is not merged: no state escapes, and no later node runs) — and when the
entry point is set to that node `invoke` itself returns the error.  When NO
entry point is set, however, `invoke` PANICS (`expect` on `None` with
message `Graph must have an entry point`) instead of returning an error to
the caller. -/
theorem invoke_node_error_aborts {Cfg : Type} (g : CompiledGraph Cfg)
    (cfg : Cfg) (fuel : Nat) (visited tr : List String) (current : String)
    (s : AgentState) (f : NodeFunction Cfg) (e : String)
    (hcur : current ≠ g.graph.end_node) (hvis : current ∉ visited)
    (hf : alGet g.graph.nodes current = some f)
    (herr : f s cfg = Except.error e) :
    invokeLoop g.graph cfg (fuel + 1) visited current s tr =
      RunResult.fail (tr ++ [current]) (GraphError.nodeError e) ∧
    (g.graph.entry_point = none →
      g.invoke s cfg = RunResult.panicked "Graph must have an entry point") ∧
    (g.graph.entry_point = some current →
      g.invoke s cfg = RunResult.fail [current] (GraphError.nodeError e)) := by
  have hloop : ∀ (fl : Nat) (vis trc : List String), current ∉ vis →
      invokeLoop g.graph cfg (fl + 1) vis current s trc =
        RunResult.fail (trc ++ [current]) (GraphError.nodeError e) := by
    intro fl vis trc hv
    rw [invokeLoop, if_neg hcur, if_neg hv, hf]
    dsimp only
    rw [herr]
  refine ⟨hloop fuel visited tr hvis, ?_, ?_⟩
  · intro hE
    rw [CompiledGraph.invoke, hE]
  · intro hE
    rw [CompiledGraph.invoke, hE]
    dsimp only
    exact hloop g.graph.nodes.length [] [] (List.not_mem_nil current)

/-- Witness for C7's amended theorem at the concrete one-node failing
graph. -/
theorem invoke_node_error_aborts_witness :
    invokeLoop errGraph.graph () (0 + 1) [] "A" AgentState.new [] =
      RunResult.fail ["A"] (GraphError.nodeError "boom") ∧
    (errGraph.graph.entry_point = none →
      errGraph.invoke AgentState.new () =
        RunResult.panicked "Graph must have an entry point") ∧
    (errGraph.graph.entry_point = some "A" →
      errGraph.invoke AgentState.new () =
        RunResult.fail ["A"] (GraphError.nodeError "boom")) :=
  invoke_node_error_aborts errGraph () 0 [] [] "A" AgentState.new nodeBoom
    "boom" (by decide) (List.not_mem_nil "A") rfl rfl

/-- C7 (counterexample to the claim as stated): invoking the compiled
graph whose definition has no entry point does NOT return a configuration
error to the caller — it panics (`expect`), so the result is a panic and
is not a returned error of any kind. -/
theorem invoke_no_entry_point_panics :
    noEntryGraph.invoke AgentState.new () =
      RunResult.panicked "Graph must have an entry point" ∧
    RunResult.isFail (noEntryGraph.invoke AgentState.new ()) = false :=
  ⟨rfl, rfl⟩
